import Mathlib

/-!
Verification of the kcpdump-rs frontend logic: the IPv4 filter engine
(`filteredIpv4Packets` in the main view component), the IP aggregation
engine (`sourceIpStats` / `destIpStats` in the chart component), and the
protocol-name resolver (`getProtocolName`).  The TypeScript computeds are
embedded as pure Lean functions over lists of records; JavaScript numbers
appearing in percentage computations are modelled as rationals, with
`Number.prototype.toFixed(2)` modelled as exact decimal rounding
(round-to-nearest, ties toward the larger value, per ECMA-262).
-/

/-- Shape of the objects in the `ipv4Packets` ref: one decoded IPv4 packet
as delivered by the `analyze_ipv4_packets` backend call.  `tsSec` and
`tsUsec` are the two unsigned 32-bit timestamp fields of the capture
record, hence naturals. -/
structure IPv4Record where
  sourceIp : String
  destIp : String
  protocol : Nat
  ttl : Nat
  tsSec : Nat
  tsUsec : Nat
  totalLength : Nat
deriving DecidableEq, Repr

/-- Shape of the `ipv4Filter` ref: start/end time are `number | null`
(millisecond epoch values chosen in a date picker, possibly negative),
`ipAddress` a string (empty means no IP filter), `direction` one of the
strings "source", "dest", "any". -/
structure FilterCriteria where
  startTime : Option Int
  endTime : Option Int
  ipAddress : String
  direction : String
deriving DecidableEq, Repr

/-- JavaScript truthiness test on a `number | null` value: `!x` is true
exactly when `x` is `null` or `0`. -/
def numFalsy : Option Int → Bool
  | none => true
  | some v => v == 0

/-- The record's time value as computed in the filter:
`packet.tsSec * 1000 + Math.floor(packet.tsUsec / 1000)` (natural
division is floor division here). -/
def packetTime (p : IPv4Record) : Nat :=
  p.tsSec * 1000 + p.tsUsec / 1000

/-- The `timeMatches` boolean of the filter body:
`(!startTime || packetTime >= startTime) && (!endTime || packetTime <= endTime)`. -/
def timeMatchesB (f : FilterCriteria) (p : IPv4Record) : Bool :=
  (numFalsy f.startTime || f.startTime.getD 0 ≤ (packetTime p : Int)) &&
  (numFalsy f.endTime || (packetTime p : Int) ≤ f.endTime.getD 0)

/-- The IP part of the filter body: when `ipAddress` is non-empty (JS
string truthiness), switch on `direction`; the `default` arm returns
`true`.  When `ipAddress` is empty the body falls through to `return true`. -/
def ipMatchesB (f : FilterCriteria) (p : IPv4Record) : Bool :=
  if f.ipAddress == "" then true
  else
    match f.direction with
    | "source" => p.sourceIp == f.ipAddress
    | "dest" => p.destIp == f.ipAddress
    | "any" => p.sourceIp == f.ipAddress || p.destIp == f.ipAddress
    | _ => true

/-- The predicate passed to `.filter` in `filteredIpv4Packets`, translated
statement by statement: `if (!timeMatches) return false;` then the IP
switch, then `return true`. -/
def packetPasses (f : FilterCriteria) (p : IPv4Record) : Bool :=
  if !timeMatchesB f p then false
  else if !(f.ipAddress == "") then
    match f.direction with
    | "source" => p.sourceIp == f.ipAddress
    | "dest" => p.destIp == f.ipAddress
    | "any" => p.sourceIp == f.ipAddress || p.destIp == f.ipAddress
    | _ => true
  else true

/-- The `filteredIpv4Packets` computed on its filtering path
(`isFiltered = true`): `ipv4Packets.filter(packet => ...)`. -/
def filteredIpv4Packets (f : FilterCriteria) (ps : List IPv4Record) : List IPv4Record :=
  ps.filter (packetPasses f)

/-- Spec-side time predicate, worded as the specification words it: a
record passes if `start` is unset or `time >= start`, and `end` is unset
or `time <= end`, where "unset" reads as the absent (`null`) value. -/
def timePredSpec (f : FilterCriteria) (p : IPv4Record) : Prop :=
  (f.startTime = none ∨ f.startTime.getD 0 ≤ (packetTime p : Int)) ∧
  (f.endTime = none ∨ (packetTime p : Int) ≤ f.endTime.getD 0)

instance (f : FilterCriteria) (p : IPv4Record) : Decidable (timePredSpec f p) :=
  inferInstanceAs (Decidable
    ((f.startTime = none ∨ f.startTime.getD 0 ≤ (packetTime p : Int)) ∧
     (f.endTime = none ∨ (packetTime p : Int) ≤ f.endTime.getD 0)))

/-- Spec-side IP predicate, worded as the specification words it. -/
def ipPredSpec (f : FilterCriteria) (p : IPv4Record) : Prop :=
  f.ipAddress = "" ∨
  (f.direction = "source" ∧ p.sourceIp = f.ipAddress) ∨
  (f.direction = "dest" ∧ p.destIp = f.ipAddress) ∨
  (f.direction = "any" ∧ (p.sourceIp = f.ipAddress ∨ p.destIp = f.ipAddress)) ∨
  (f.direction ≠ "source" ∧ f.direction ≠ "dest" ∧ f.direction ≠ "any")

instance (f : FilterCriteria) (p : IPv4Record) : Decidable (ipPredSpec f p) :=
  inferInstanceAs (Decidable
    (f.ipAddress = "" ∨
     (f.direction = "source" ∧ p.sourceIp = f.ipAddress) ∨
     (f.direction = "dest" ∧ p.destIp = f.ipAddress) ∨
     (f.direction = "any" ∧ (p.sourceIp = f.ipAddress ∨ p.destIp = f.ipAddress)) ∨
     (f.direction ≠ "source" ∧ f.direction ≠ "dest" ∧ f.direction ≠ "any")))

/-- The filter body computes `timeMatches && ipMatches`. -/
theorem packetPasses_eq (f : FilterCriteria) (p : IPv4Record) :
    packetPasses f p = (timeMatchesB f p && ipMatchesB f p) := by
  unfold packetPasses ipMatchesB
  cases h : timeMatchesB f p <;> simp

/-- The protocol lookup table `protocolMap` of the main view component:
1→ICMP, 2→IGMP, 6→TCP, 17→UDP, 89→OSPF, absent otherwise. -/
def protocolMap (n : Nat) : Option String :=
  if n = 1 then some "ICMP"
  else if n = 2 then some "IGMP"
  else if n = 6 then some "TCP"
  else if n = 17 then some "UDP"
  else if n = 89 then some "OSPF"
  else none

/-- `getProtocolName`: the table entry when present, otherwise the
fallback label that interpolates the numeric code (the UI uses the
Chinese word for "unknown"). -/
def getProtocolName (protocolNum : Nat) : String :=
  (protocolMap protocolNum).getD ("未知(" ++ toString protocolNum ++ ")")

/-- Rounding performed by `Number.prototype.toFixed`: the integer closest
to the argument, ties resolved toward the larger integer (ECMA-262
Number.prototype.toFixed step "if there are two such n, pick the larger n"),
which is floor of the value plus one half. -/
def jsRound (q : ℚ) : ℤ := ⌊q + 1 / 2⌋

/-- `x.toFixed(2)` as an exact decimal value: round `x * 100` to an
integer, divide by 100. -/
def toFixed2 (q : ℚ) : ℚ := (jsRound (q * 100) : ℚ) / 100

/-- One element of the arrays built by `sourceIpStats` / `destIpStats`:
`{ name: ip, value: count, percentage: ... }`. -/
structure IpDistributionEntry where
  name : String
  value : Nat
  percentage : ℚ
deriving DecidableEq, Repr

/-- The accumulator update `stats[ip] = (stats[ip] || 0) + 1` on a plain
JS object with string keys: keys keep first-insertion order, so the
object is modelled as an association list where a fresh key is appended. -/
def insertCount : List (String × Nat) → String → List (String × Nat)
  | [], ip => [(ip, 1)]
  | (k, v) :: rest, ip =>
    if k = ip then (k, v + 1) :: rest else (k, v) :: insertCount rest ip

/-- The `forEach` accumulation pass of the stats computeds, keyed by the
given field projection (sourceIp for one chart, destIp for the other). -/
def ipCounts (key : IPv4Record → String) (ps : List IPv4Record) :
    List (String × Nat) :=
  ps.foldl (fun acc p => insertCount acc (key p)) []

/-- The `.map(([ip, count]) => ({name, value, percentage}))` step:
`percentage` is `((count / packets.length) * 100).toFixed(2)`. -/
def mkEntries (total : Nat) (counts : List (String × Nat)) :
    List IpDistributionEntry :=
  counts.map (fun kv =>
    ⟨kv.1, kv.2, toFixed2 ((kv.2 : ℚ) / (total : ℚ) * 100)⟩)

/-- Descending comparison used by `.sort((a, b) => b.value - a.value)`:
`a` goes no later than `b` exactly when `b.value ≤ a.value`. -/
def countGE (a b : IpDistributionEntry) : Prop := b.value ≤ a.value

instance : DecidableRel countGE := fun a b => Nat.decLe b.value a.value

instance : IsTotal IpDistributionEntry countGE :=
  ⟨fun a b => (Nat.le_total b.value a.value).imp id id⟩

instance : IsTrans IpDistributionEntry countGE :=
  ⟨fun _ _ _ h1 h2 => Nat.le_trans h2 h1⟩

/-- Common body of the two stats computeds: count, make entries, sort by
count descending.  `Array.prototype.sort` is a stable sort (ES2019), and
a stable sort's output is uniquely determined by the comparator, so it
is modelled by the stable `insertionSort`. -/
def ipStats (key : IPv4Record → String) (ps : List IPv4Record) :
    List IpDistributionEntry :=
  (mkEntries ps.length (ipCounts key ps)).insertionSort countGE

/-- The `sourceIpStats` computed of the chart component. -/
def sourceIpStats (ps : List IPv4Record) : List IpDistributionEntry :=
  ipStats (fun p => p.sourceIp) ps

/-- The `destIpStats` computed of the chart component. -/
def destIpStats (ps : List IPv4Record) : List IpDistributionEntry :=
  ipStats (fun p => p.destIp) ps

/-- Sum of the `value` fields of an association list. -/
def sumVals (l : List (String × Nat)) : Nat := (l.map Prod.snd).sum

/-- Sum of the `percentage` fields of a distribution. -/
def sumPercentages (l : List IpDistributionEntry) : ℚ :=
  (l.map IpDistributionEntry.percentage).sum

/-- Sum of the `value` fields of a distribution. -/
def sumCounts (l : List IpDistributionEntry) : Nat :=
  (l.map IpDistributionEntry.value).sum

/-- Concrete filter used to refute C1 as literally stated: an end bound
that is set but equal to 0. -/
def c1Filter : FilterCriteria := ⟨none, some 0, "", "any"⟩

/-- Concrete record with a positive millisecond time value (1000 ms). -/
def c1Record : IPv4Record := ⟨"10.0.0.1", "10.0.0.2", 6, 64, 1, 0, 20⟩

/-- C1 (counterexample): with the end bound set to the value 0 and a
record whose time value is 1000 ms, the code's time predicate passes,
but the claim's reading (end is unset or time <= end) requires
1000 <= 0 and fails: the "pass iff" equivalence of the claim is false. -/
theorem c1_counterexample :
    timeMatchesB c1Filter c1Record = true ∧ ¬ timePredSpec c1Filter c1Record := by
  decide

/-- C1 (amended): the time predicate computes the record's time value as
seconds*1000 + floor(microseconds/1000), and passes iff (start is unset
— null or 0 — or time >= start) and (end is unset — null or 0 — or
time <= end). -/
theorem c1_time_predicate (f : FilterCriteria) (p : IPv4Record) :
    packetTime p = p.tsSec * 1000 + p.tsUsec / 1000 ∧
    (timeMatchesB f p = true ↔
      ((f.startTime = none ∨ f.startTime = some 0 ∨
          f.startTime.getD 0 ≤ (packetTime p : Int)) ∧
       (f.endTime = none ∨ f.endTime = some 0 ∨
          (packetTime p : Int) ≤ f.endTime.getD 0))) := by
  refine ⟨rfl, ?_⟩
  unfold timeMatchesB numFalsy
  rcases f.startTime with _ | s <;> rcases f.endTime with _ | e <;>
    simp [Bool.or_eq_true, decide_eq_true_iff]

/-- C1 (witness for the amended theorem): at the concrete filter with
both bounds null, the equivalence instantiates to a true statement. -/
theorem c1_witness :
    timeMatchesB ⟨none, none, "", "any"⟩ c1Record = true ↔
      (((⟨none, none, "", "any"⟩ : FilterCriteria).startTime = none ∨
          (⟨none, none, "", "any"⟩ : FilterCriteria).startTime = some 0 ∨
          (⟨none, none, "", "any"⟩ : FilterCriteria).startTime.getD 0 ≤
            (packetTime c1Record : Int)) ∧
       ((⟨none, none, "", "any"⟩ : FilterCriteria).endTime = none ∨
          (⟨none, none, "", "any"⟩ : FilterCriteria).endTime = some 0 ∨
          (packetTime c1Record : Int) ≤
            (⟨none, none, "", "any"⟩ : FilterCriteria).endTime.getD 0)) :=
  (c1_time_predicate ⟨none, none, "", "any"⟩ c1Record).2

/-- C2: the IP predicate of the filter behaves as specified (empty
address always passes; otherwise source/dest/any compare the respective
fields, unrecognized directions pass), and a record is in the filter
output iff it is in the input and satisfies both the time predicate and
the IP predicate. -/
theorem c2_ip_predicate_conjunction (f : FilterCriteria) (p : IPv4Record)
    (ps : List IPv4Record) :
    (ipMatchesB f p = true ↔ ipPredSpec f p) ∧
    (p ∈ filteredIpv4Packets f ps ↔
      p ∈ ps ∧ timeMatchesB f p = true ∧ ipMatchesB f p = true) := by
  constructor
  · unfold ipMatchesB ipPredSpec
    by_cases he : f.ipAddress = ""
    · simp [he]
    · rw [if_neg (by simpa using he)]
      split <;> rename_i hd <;> simp_all
  · rw [filteredIpv4Packets, List.mem_filter, packetPasses_eq, Bool.and_eq_true]

/-- C3: the all-empty criteria (no bounds, empty address, direction
"any") filter every record through: the filter is the identity. -/
theorem c3_identity_filter (ps : List IPv4Record) :
    filteredIpv4Packets ⟨none, none, "", "any"⟩ ps = ps := by
  unfold filteredIpv4Packets
  exact List.filter_eq_self.mpr (fun a _ => rfl)

/-- C7: the protocol resolver maps 1, 2, 6, 17, 89 to ICMP, IGMP, TCP,
UDP, OSPF, and every other number to the fallback label that embeds the
number itself. -/
theorem c7_protocol_resolution (n : Nat)
    (h : n ≠ 1 ∧ n ≠ 2 ∧ n ≠ 6 ∧ n ≠ 17 ∧ n ≠ 89) :
    getProtocolName 1 = "ICMP" ∧ getProtocolName 2 = "IGMP" ∧
    getProtocolName 6 = "TCP" ∧ getProtocolName 17 = "UDP" ∧
    getProtocolName 89 = "OSPF" ∧
    getProtocolName n = "未知(" ++ toString n ++ ")" := by
  obtain ⟨h1, h2, h6, h17, h89⟩ := h
  refine ⟨rfl, rfl, rfl, rfl, rfl, ?_⟩
  unfold getProtocolName protocolMap
  simp [h1, h2, h6, h17, h89]

/-- C7 (witness): protocol 250 resolves to the fallback label with the
numeric value 250 preserved in the text. -/
theorem c7_witness : getProtocolName 250 = "未知(250)" := by
  have h := (c7_protocol_resolution 250 (by decide)).2.2.2.2.2
  simpa using h

/-- C8: the filter output is a sublist of the input: it keeps the
records in their input order (and, being a pure function on an immutable
list, cannot alter the input). -/
theorem c8_filter_sublist (f : FilterCriteria) (ps : List IPv4Record) :
    (filteredIpv4Packets f ps).Sublist ps :=
  List.filter_sublist ps

/-- C9: a bound set to 0 behaves exactly like an absent bound, and with
a null start bound and an end bound of 0 every record passes the time
predicate. -/
theorem c9_zero_bound_unset (f : FilterCriteria) (p : IPv4Record) :
    (timeMatchesB { f with startTime := some 0 } p =
      timeMatchesB { f with startTime := none } p) ∧
    (timeMatchesB { f with endTime := some 0 } p =
      timeMatchesB { f with endTime := none } p) ∧
    (f.startTime = none → timeMatchesB { f with endTime := some 0 } p = true) := by
  refine ⟨rfl, rfl, fun hs => ?_⟩
  simp [timeMatchesB, hs, numFalsy]

/-- C9 (witness): with start null and end 0, a record whose time value
is 1000 ms (greater than 0) passes the time predicate. -/
theorem c9_witness :
    timeMatchesB { (⟨none, some 5, "", "any"⟩ : FilterCriteria) with
        endTime := some 0 } c1Record = true ∧ 0 < packetTime c1Record :=
  ⟨(c9_zero_bound_unset ⟨none, some 5, "", "any"⟩ c1Record).2.2 rfl, by decide⟩

/-- Inserting one occurrence raises the total count by exactly one. -/
theorem sumVals_insertCount (acc : List (String × Nat)) (ip : String) :
    sumVals (insertCount acc ip) = sumVals acc + 1 := by
  induction acc with
  | nil => rfl
  | cons kv rest ih =>
    obtain ⟨k, v⟩ := kv
    by_cases hk : k = ip
    · simp [insertCount, hk, sumVals]
      omega
    · simp [insertCount, hk, sumVals] at *
      omega

/-- The accumulation pass counts every record exactly once: starting
from any accumulator, folding a list adds its length to the total. -/
theorem foldl_insertCount_sumVals (key : IPv4Record → String)
    (ps : List IPv4Record) :
    ∀ acc : List (String × Nat),
      sumVals (ps.foldl (fun a p => insertCount a (key p)) acc) =
        sumVals acc + ps.length := by
  induction ps with
  | nil => intro acc; simp
  | cons p rest ih =>
    intro acc
    simp only [List.foldl_cons, List.length_cons]
    rw [ih, sumVals_insertCount]
    omega

/-- The counts produced by the accumulation pass sum to the number of
records. -/
theorem ipCounts_sumVals (key : IPv4Record → String) (ps : List IPv4Record) :
    sumVals (ipCounts key ps) = ps.length := by
  rw [ipCounts, foldl_insertCount_sumVals]
  simp [sumVals]

/-- Building the display entries preserves the counts. -/
theorem sumCounts_mkEntries (total : Nat) (c : List (String × Nat)) :
    sumCounts (mkEntries total c) = sumVals c := by
  unfold sumCounts mkEntries sumVals
  rw [List.map_map]
  rfl

/-- Sorting is a permutation, so it preserves the count total. -/
theorem sumCounts_ipStats (key : IPv4Record → String) (ps : List IPv4Record) :
    sumCounts (ipStats key ps) = ps.length := by
  unfold ipStats sumCounts
  rw [((List.perm_insertionSort countGE
      (mkEntries ps.length (ipCounts key ps))).map
      IpDistributionEntry.value).sum_eq]
  rw [← sumCounts, sumCounts_mkEntries, ipCounts_sumVals]

/-- Every entry of a sorted stats list already appears in the unsorted
entry list, with the percentage computed from its own count field. -/
theorem mem_ipStats_percentage (key : IPv4Record → String)
    (ps : List IPv4Record) (e : IpDistributionEntry)
    (he : e ∈ ipStats key ps) :
    e.percentage = toFixed2 ((e.value : ℚ) / (ps.length : ℚ) * 100) := by
  unfold ipStats at he
  have hm := (List.perm_insertionSort countGE
    (mkEntries ps.length (ipCounts key ps))).mem_iff.mp he
  unfold mkEntries at hm
  obtain ⟨kv, _, rfl⟩ := List.mem_map.mp hm
  rfl

/-- C4: every entry's percentage is its count divided by the total
record count, times 100, rounded to two decimal places; on the empty
input both distributions are empty, so no division by zero arises. -/
theorem c4_percentage_formula (ps : List IPv4Record) :
    (∀ e ∈ sourceIpStats ps,
      e.percentage = toFixed2 ((e.value : ℚ) / (ps.length : ℚ) * 100)) ∧
    (∀ e ∈ destIpStats ps,
      e.percentage = toFixed2 ((e.value : ℚ) / (ps.length : ℚ) * 100)) ∧
    (ps = [] → sourceIpStats ps = [] ∧ destIpStats ps = []) := by
  refine ⟨fun e he => mem_ipStats_percentage _ ps e he,
    fun e he => mem_ipStats_percentage _ ps e he, fun hps => ?_⟩
  subst hps
  exact ⟨rfl, rfl⟩

/-- Concrete two-record input for the C4 witness: both records share the
source IP "a", so its distribution is the single entry (a, 2, 100%). -/
def c4List : List IPv4Record :=
  [⟨"a", "b", 6, 64, 0, 0, 0⟩, ⟨"a", "c", 6, 64, 0, 0, 0⟩]

/-- The single entry of the source distribution of `c4List`. -/
def c4Entry : IpDistributionEntry :=
  ⟨"a", 2, toFixed2 (((2 : ℕ) : ℚ) / ((c4List.length : ℕ) : ℚ) * 100)⟩

/-- The source distribution of `c4List` evaluates to that one entry. -/
theorem c4_eval : sourceIpStats c4List = [c4Entry] := rfl

/-- C4 (witness): the percentage formula instantiated at a concrete
entry of a concrete input, and the empty-input case instantiated. -/
theorem c4_witness :
    c4Entry.percentage =
      toFixed2 ((c4Entry.value : ℚ) / ((c4List.length : ℕ) : ℚ) * 100) ∧
    sourceIpStats ([] : List IPv4Record) = [] ∧
    destIpStats ([] : List IPv4Record) = [] :=
  ⟨(c4_percentage_formula c4List).1 _
      (by rw [c4_eval]; exact List.mem_singleton.mpr rfl),
   (c4_percentage_formula []).2.2 rfl⟩

/-- C6: both distributions are sorted in descending order of count
(adjacent-free pairwise form: every later entry has a count no larger). -/
theorem c6_sorted_descending (ps : List IPv4Record) :
    (sourceIpStats ps).Pairwise (fun a b => b.value ≤ a.value) ∧
    (destIpStats ps).Pairwise (fun a b => b.value ≤ a.value) :=
  ⟨List.sorted_insertionSort countGE (mkEntries ps.length
      (ipCounts (fun p => p.sourceIp) ps)),
   List.sorted_insertionSort countGE (mkEntries ps.length
      (ipCounts (fun p => p.destIp) ps))⟩

/-- Input with two distinct source IPs of unequal frequency, to witness
the sortedness claim. -/
def c6List : List IPv4Record :=
  [⟨"u", "v", 6, 64, 0, 0, 0⟩, ⟨"w", "v", 6, 64, 0, 0, 0⟩,
   ⟨"w", "v", 6, 64, 0, 0, 0⟩]

/-- C6 (witness): sortedness instantiated at a concrete input. -/
theorem c6_witness :
    (sourceIpStats c6List).Pairwise (fun a b => b.value ≤ a.value) :=
  (c6_sorted_descending c6List).1

/-- The rounding error of the integer rounding step is at most one half. -/
theorem jsRound_close (q : ℚ) : |(jsRound q : ℚ) - q| ≤ 1 / 2 := by
  unfold jsRound
  have h1 : ((⌊q + 1 / 2⌋ : ℤ) : ℚ) ≤ q + 1 / 2 := Int.floor_le _
  have h2 : q + 1 / 2 < ((⌊q + 1 / 2⌋ : ℤ) : ℚ) + 1 := Int.lt_floor_add_one _
  rw [abs_le]
  constructor <;> linarith

/-- The rounding error of `toFixed(2)` is at most 0.005. -/
theorem toFixed2_close (q : ℚ) : |toFixed2 q - q| ≤ 1 / 200 := by
  unfold toFixed2
  have h := jsRound_close (q * 100)
  have heq : ((jsRound (q * 100) : ℤ) : ℚ) / 100 - q =
      (((jsRound (q * 100) : ℤ) : ℚ) - q * 100) / 100 := by ring
  rw [heq, abs_div, abs_of_pos (by norm_num : (0 : ℚ) < 100)]
  linarith

/-- Summed over a list of entries, the individual rounding errors add up
to at most 0.005 per entry. -/
theorem sumPct_mkEntries_close (T : Nat) (c : List (String × Nat)) :
    |sumPercentages (mkEntries T c) -
      (c.map (fun kv => (kv.2 : ℚ) / (T : ℚ) * 100)).sum| ≤
      (c.length : ℚ) * (1 / 200) := by
  induction c with
  | nil => simp [sumPercentages, mkEntries]
  | cons kv rest ih =>
    have hclose := toFixed2_close ((kv.2 : ℚ) / (T : ℚ) * 100)
    have hsum : sumPercentages (mkEntries T (kv :: rest)) =
        toFixed2 ((kv.2 : ℚ) / (T : ℚ) * 100) +
          sumPercentages (mkEntries T rest) := by
      simp [sumPercentages, mkEntries]
    rw [hsum, List.map_cons, List.sum_cons, List.length_cons]
    have hre : |toFixed2 ((kv.2 : ℚ) / (T : ℚ) * 100) +
          sumPercentages (mkEntries T rest) -
          ((kv.2 : ℚ) / (T : ℚ) * 100 +
            (rest.map (fun kv => (kv.2 : ℚ) / (T : ℚ) * 100)).sum)| =
        |(toFixed2 ((kv.2 : ℚ) / (T : ℚ) * 100) -
            (kv.2 : ℚ) / (T : ℚ) * 100) +
          (sumPercentages (mkEntries T rest) -
            (rest.map (fun kv => (kv.2 : ℚ) / (T : ℚ) * 100)).sum)| := by
      congr 1
      ring
    rw [hre]
    have htri := abs_add
      (toFixed2 ((kv.2 : ℚ) / (T : ℚ) * 100) - (kv.2 : ℚ) / (T : ℚ) * 100)
      (sumPercentages (mkEntries T rest) -
        (rest.map (fun kv => (kv.2 : ℚ) / (T : ℚ) * 100)).sum)
    push_cast
    linarith

/-- The exact (unrounded) percentages sum to `sumVals/T * 100`. -/
theorem sum_exact_pct (T : Nat) (c : List (String × Nat)) :
    (c.map (fun kv => (kv.2 : ℚ) / (T : ℚ) * 100)).sum =
      ((sumVals c : ℕ) : ℚ) / (T : ℚ) * 100 := by
  induction c with
  | nil => simp [sumVals]
  | cons kv rest ih =>
    have hv : sumVals (kv :: rest) = kv.2 + sumVals rest := by simp [sumVals]
    rw [List.map_cons, List.sum_cons, ih, hv]
    push_cast
    ring

/-- Sorting preserves the percentage total. -/
theorem sumPercentages_ipStats (key : IPv4Record → String)
    (ps : List IPv4Record) :
    sumPercentages (ipStats key ps) =
      sumPercentages (mkEntries ps.length (ipCounts key ps)) := by
  unfold ipStats sumPercentages
  exact ((List.perm_insertionSort countGE
    (mkEntries ps.length (ipCounts key ps))).map
    IpDistributionEntry.percentage).sum_eq

/-- Sorting preserves the number of entries, and making entries does. -/
theorem length_ipStats (key : IPv4Record → String) (ps : List IPv4Record) :
    (ipStats key ps).length = (ipCounts key ps).length := by
  unfold ipStats
  rw [(List.perm_insertionSort countGE
    (mkEntries ps.length (ipCounts key ps))).length_eq]
  unfold mkEntries
  exact List.length_map _ _

/-- Every pairwise relation that holds universally holds pairwise. -/
theorem pairwise_of_forall {α : Type} {r : α → α → Prop} (h : ∀ a b, r a b) :
    ∀ l : List α, l.Pairwise r := by
  intro l
  induction l with
  | nil => exact List.Pairwise.nil
  | cons x xs ih => exact List.Pairwise.cons (fun b _ => h x b) ih

/-- Inserting a key that is not yet present appends it with count 1. -/
theorem insertCount_of_not_mem (acc : List (String × Nat)) (ip : String)
    (h : ip ∉ acc.map Prod.fst) : insertCount acc ip = acc ++ [(ip, 1)] := by
  induction acc with
  | nil => rfl
  | cons kv rest ih =>
    obtain ⟨k, v⟩ := kv
    simp only [List.map_cons, List.mem_cons] at h
    push_neg at h
    simp [insertCount, Ne.symm h.1, ih h.2]

/-- On records with pairwise-distinct keys, the accumulation pass
produces one count-1 pair per record, in input order. -/
theorem ipCounts_of_nodup (key : IPv4Record → String) (ps : List IPv4Record)
    (h : (ps.map key).Nodup) :
    ipCounts key ps = ps.map (fun p => (key p, 1)) := by
  suffices hgen : ∀ acc : List (String × Nat),
      (∀ p ∈ ps, key p ∉ acc.map Prod.fst) → (ps.map key).Nodup →
      ps.foldl (fun a p => insertCount a (key p)) acc =
        acc ++ ps.map (fun p => (key p, 1)) by
    simpa using hgen [] (by simp) h
  clear h
  induction ps with
  | nil => intro acc _ _; simp
  | cons p rest ih =>
    intro acc hfresh hnd
    simp only [List.map_cons, List.nodup_cons] at hnd
    simp only [List.foldl_cons]
    rw [insertCount_of_not_mem acc (key p)
      (hfresh p (List.mem_cons_self p rest))]
    rw [ih (acc ++ [(key p, 1)]) ?fresh hnd.2]
    · simp
    case fresh =>
      intro q hq
      simp only [List.map_append, List.mem_append]
      push_neg
      refine ⟨hfresh q (List.mem_cons_of_mem p hq), ?_⟩
      simp only [List.map_cons, List.map_nil, List.mem_singleton]
      intro hqp
      exact hnd.1 (hqp ▸ List.mem_map_of_mem key hq)

/-- On distinct keys the whole stats pipeline is the identity-order
list of entries with count 1 and a common percentage. -/
theorem ipStats_of_nodup (key : IPv4Record → String) (ps : List IPv4Record)
    (h : (ps.map key).Nodup) :
    ipStats key ps = ps.map (fun p =>
      ⟨key p, 1, toFixed2 (((1 : ℕ) : ℚ) / ((ps.length : ℕ) : ℚ) * 100)⟩) := by
  unfold ipStats
  rw [ipCounts_of_nodup key ps h]
  have hmk : mkEntries ps.length (ps.map (fun p => (key p, 1))) =
      ps.map (fun p => ⟨key p, 1,
        toFixed2 (((1 : ℕ) : ℚ) / ((ps.length : ℕ) : ℚ) * 100)⟩) := by
    unfold mkEntries
    rw [List.map_map]
    rfl
  rw [hmk]
  exact List.Sorted.insertionSort_eq
    (List.pairwise_map.mpr (pairwise_of_forall (fun a b => Nat.le_refl 1) ps))

/-- Summing one shared percentage over constant entries. -/
theorem sumPercentages_map_const (ps : List IPv4Record)
    (g : IPv4Record → String) (x : ℚ) :
    sumPercentages (ps.map (fun p => ⟨g p, 1, x⟩)) = ps.length • x := by
  unfold sumPercentages
  rw [List.map_map]
  rw [show (IpDistributionEntry.percentage ∘ fun p =>
      (⟨g p, 1, x⟩ : IpDistributionEntry)) = fun _ => x from rfl]
  rw [List.map_const', List.sum_replicate]

/-- Thirty-one records with pairwise-distinct source IPs: each entry
rounds 100/31 ≈ 3.2258 up to 3.23, and the 31 rounding errors pile up
to a percentage total of 100.13. -/
def c5List : List IPv4Record :=
  [⟨"s00", "d", 6, 64, 0, 0, 0⟩,
   ⟨"s01", "d", 6, 64, 0, 0, 0⟩,
   ⟨"s02", "d", 6, 64, 0, 0, 0⟩,
   ⟨"s03", "d", 6, 64, 0, 0, 0⟩,
   ⟨"s04", "d", 6, 64, 0, 0, 0⟩,
   ⟨"s05", "d", 6, 64, 0, 0, 0⟩,
   ⟨"s06", "d", 6, 64, 0, 0, 0⟩,
   ⟨"s07", "d", 6, 64, 0, 0, 0⟩,
   ⟨"s08", "d", 6, 64, 0, 0, 0⟩,
   ⟨"s09", "d", 6, 64, 0, 0, 0⟩,
   ⟨"s10", "d", 6, 64, 0, 0, 0⟩,
   ⟨"s11", "d", 6, 64, 0, 0, 0⟩,
   ⟨"s12", "d", 6, 64, 0, 0, 0⟩,
   ⟨"s13", "d", 6, 64, 0, 0, 0⟩,
   ⟨"s14", "d", 6, 64, 0, 0, 0⟩,
   ⟨"s15", "d", 6, 64, 0, 0, 0⟩,
   ⟨"s16", "d", 6, 64, 0, 0, 0⟩,
   ⟨"s17", "d", 6, 64, 0, 0, 0⟩,
   ⟨"s18", "d", 6, 64, 0, 0, 0⟩,
   ⟨"s19", "d", 6, 64, 0, 0, 0⟩,
   ⟨"s20", "d", 6, 64, 0, 0, 0⟩,
   ⟨"s21", "d", 6, 64, 0, 0, 0⟩,
   ⟨"s22", "d", 6, 64, 0, 0, 0⟩,
   ⟨"s23", "d", 6, 64, 0, 0, 0⟩,
   ⟨"s24", "d", 6, 64, 0, 0, 0⟩,
   ⟨"s25", "d", 6, 64, 0, 0, 0⟩,
   ⟨"s26", "d", 6, 64, 0, 0, 0⟩,
   ⟨"s27", "d", 6, 64, 0, 0, 0⟩,
   ⟨"s28", "d", 6, 64, 0, 0, 0⟩,
   ⟨"s29", "d", 6, 64, 0, 0, 0⟩,
   ⟨"s30", "d", 6, 64, 0, 0, 0⟩]

/-- The common entry percentage in `c5List`: 100/31 rounds to 3.23. -/
theorem c5_entry_pct :
    toFixed2 (((1 : ℕ) : ℚ) / ((c5List.length : ℕ) : ℚ) * 100) = 323 / 100 := by
  rw [show c5List.length = 31 from rfl]
  unfold toFixed2 jsRound
  norm_num

/-- C5 (counterexample): on 31 records with distinct source IPs the
percentages each round up to 3.23 and sum to 100.13, which is more than
0.1 away from 100: the claimed ±0.1 tolerance fails. -/
theorem c5_counterexample :
    c5List ≠ [] ∧
    ¬ |sumPercentages (sourceIpStats c5List) - 100| ≤ 1 / 10 := by
  constructor
  · simp [c5List]
  · have hnodup : (c5List.map (fun p => p.sourceIp)).Nodup := by decide
    have hs := ipStats_of_nodup (fun p => p.sourceIp) c5List hnodup
    show ¬ |sumPercentages (ipStats (fun p => p.sourceIp) c5List) - 100| ≤ 1 / 10
    rw [hs, sumPercentages_map_const, c5_entry_pct,
      show c5List.length = 31 from rfl, nsmul_eq_mul]
    rw [abs_le]
    push_neg
    intro _
    norm_num

/-- C5 (amended): for every non-empty input the counts of the source-IP
distribution sum to the input length, and the percentages sum to 100
within a tolerance of 0.005 per entry (±0.1 is guaranteed only for
distributions of at most 20 entries). -/
theorem c5_sums (ps : List IPv4Record) (h : ps ≠ []) :
    sumCounts (sourceIpStats ps) = ps.length ∧
    |sumPercentages (sourceIpStats ps) - 100| ≤
      ((sourceIpStats ps).length : ℚ) * (1 / 200) := by
  refine ⟨sumCounts_ipStats _ ps, ?_⟩
  have hT : ((ps.length : ℕ) : ℚ) ≠ 0 := by
    have : ps.length ≠ 0 := fun h0 => h (List.length_eq_zero.mp h0)
    exact_mod_cast this
  have hexact : ((ipCounts (fun p => p.sourceIp) ps).map
      (fun kv => (kv.2 : ℚ) / (ps.length : ℚ) * 100)).sum = 100 := by
    rw [sum_exact_pct, ipCounts_sumVals]
    rw [div_self hT]
    norm_num
  have hclose := sumPct_mkEntries_close ps.length
    (ipCounts (fun p => p.sourceIp) ps)
  rw [hexact] at hclose
  show |sumPercentages (ipStats (fun p => p.sourceIp) ps) - 100| ≤
    ((ipStats (fun p => p.sourceIp) ps).length : ℚ) * (1 / 200)
  rw [sumPercentages_ipStats, length_ipStats]
  exact hclose

/-- One-record input for the C5 witness. -/
def c5WitnessList : List IPv4Record := [⟨"w", "x", 6, 64, 0, 0, 0⟩]

/-- C5 (witness): the amended sum properties instantiated at a concrete
non-empty input. -/
theorem c5_witness :
    sumCounts (sourceIpStats c5WitnessList) = c5WitnessList.length ∧
    |sumPercentages (sourceIpStats c5WitnessList) - 100| ≤
      ((sourceIpStats c5WitnessList).length : ℚ) * (1 / 200) :=
  c5_sums c5WitnessList (by simp [c5WitnessList])

/-- The key list of the accumulator after an insertion: unchanged when
the key was present, extended by the key otherwise. -/
theorem insertCount_keys (acc : List (String × Nat)) (ip : String) :
    (insertCount acc ip).map Prod.fst =
      if ip ∈ acc.map Prod.fst then acc.map Prod.fst
      else acc.map Prod.fst ++ [ip] := by
  induction acc with
  | nil => simp [insertCount]
  | cons kv rest ih =>
    obtain ⟨k, v⟩ := kv
    by_cases hk : k = ip
    · simp [insertCount, hk]
    · by_cases hm : ip ∈ rest.map Prod.fst <;>
        simp [insertCount, hk, ih, hm, Ne.symm hk]

/-- Inserting preserves distinctness of the accumulator's keys. -/
theorem insertCount_keys_nodup (acc : List (String × Nat)) (ip : String)
    (h : (acc.map Prod.fst).Nodup) :
    ((insertCount acc ip).map Prod.fst).Nodup := by
  rw [insertCount_keys]
  split
  · exact h
  · rename_i hm
    simp [List.nodup_append, h, hm]

/-- The counting object never holds two entries with the same key. -/
theorem ipCounts_keys_nodup (key : IPv4Record → String)
    (ps : List IPv4Record) :
    ((ipCounts key ps).map Prod.fst).Nodup := by
  suffices hgen : ∀ acc : List (String × Nat), (acc.map Prod.fst).Nodup →
      ((ps.foldl (fun a p => insertCount a (key p)) acc).map Prod.fst).Nodup by
    exact hgen [] (by simp)
  induction ps with
  | nil => intro acc hacc; simpa using hacc
  | cons p rest ih =>
    intro acc hacc
    simp only [List.foldl_cons]
    exact ih _ (insertCount_keys_nodup acc (key p) hacc)

/-- Inserting keeps every count at 1 or more, and introduces no key
other than the inserted one. -/
theorem insertCount_mem_inv (acc : List (String × Nat)) (ip : String)
    (hacc : ∀ kv ∈ acc, 1 ≤ kv.2) :
    ∀ kv ∈ insertCount acc ip,
      1 ≤ kv.2 ∧ (kv.1 ∈ acc.map Prod.fst ∨ kv.1 = ip) := by
  induction acc with
  | nil =>
    intro kv hkv
    simp only [insertCount, List.mem_singleton] at hkv
    subst hkv
    exact ⟨Nat.le_refl 1, Or.inr rfl⟩
  | cons hd rest ih =>
    obtain ⟨k, v⟩ := hd
    intro kv hkv
    by_cases hk : k = ip
    · rw [show insertCount ((k, v) :: rest) ip = (k, v + 1) :: rest from
        by simp [insertCount, hk]] at hkv
      rcases List.mem_cons.mp hkv with rfl | hkv
      · exact ⟨Nat.le_add_left 1 v, Or.inl (by simp)⟩
      · exact ⟨hacc kv (List.mem_cons_of_mem _ hkv),
          Or.inl (List.mem_map_of_mem Prod.fst (List.mem_cons_of_mem _ hkv))⟩
    · rw [show insertCount ((k, v) :: rest) ip = (k, v) :: insertCount rest ip
        from by simp [insertCount, hk]] at hkv
      rcases List.mem_cons.mp hkv with rfl | hkv
      · exact ⟨hacc (k, v) (List.mem_cons_self _ _), Or.inl (by simp)⟩
      · have hres := ih (fun kv' h' => hacc kv' (List.mem_cons_of_mem _ h'))
          kv hkv
        rcases hres with ⟨h1, h2 | h3⟩
        · refine ⟨h1, Or.inl ?_⟩
          simp only [List.map_cons, List.mem_cons]
          exact Or.inr h2
        · exact ⟨h1, Or.inr h3⟩

/-- Folding the accumulation over records keeps every count at 1 or
more and every key inside the given key set. -/
theorem foldl_insertCount_inv (key : IPv4Record → String)
    (S : String → Prop) (l : List IPv4Record) :
    ∀ acc : List (String × Nat),
      (∀ kv ∈ acc, 1 ≤ kv.2 ∧ S kv.1) →
      (∀ p ∈ l, S (key p)) →
      ∀ kv ∈ l.foldl (fun a p => insertCount a (key p)) acc,
        1 ≤ kv.2 ∧ S kv.1 := by
  induction l with
  | nil => intro acc hacc _ kv hkv; exact hacc kv hkv
  | cons p rest ih =>
    intro acc hacc hl kv hkv
    simp only [List.foldl_cons] at hkv
    refine ih (insertCount acc (key p)) ?_
      (fun q hq => hl q (List.mem_cons_of_mem _ hq)) kv hkv
    intro kv' hkv'
    have h := insertCount_mem_inv acc (key p)
      (fun a ha => (hacc a ha).1) kv' hkv'
    rcases h with ⟨h1, h2 | h3⟩
    · obtain ⟨a, ha, hae⟩ := List.mem_map.mp h2
      exact ⟨h1, hae ▸ (hacc a ha).2⟩
    · exact ⟨h1, h3 ▸ hl p (List.mem_cons_self _ _)⟩

/-- Every counted pair has count at least 1 and a key that is the key
of some input record. -/
theorem ipCounts_inv (key : IPv4Record → String) (ps : List IPv4Record) :
    ∀ kv ∈ ipCounts key ps, 1 ≤ kv.2 ∧ kv.1 ∈ ps.map key :=
  foldl_insertCount_inv key (fun s => s ∈ ps.map key) ps []
    (fun kv h => absurd h (List.not_mem_nil kv))
    (fun _ hp => List.mem_map_of_mem key hp)

/-- The displayed names of a distribution are pairwise distinct. -/
theorem ipStats_names_nodup (key : IPv4Record → String)
    (ps : List IPv4Record) :
    ((ipStats key ps).map IpDistributionEntry.name).Nodup := by
  unfold ipStats
  have hp := (List.perm_insertionSort countGE
    (mkEntries ps.length (ipCounts key ps))).map IpDistributionEntry.name
  refine hp.nodup_iff.mpr ?_
  have hmk : (mkEntries ps.length (ipCounts key ps)).map
      IpDistributionEntry.name = (ipCounts key ps).map Prod.fst := by
    unfold mkEntries
    rw [List.map_map]
    rfl
  rw [hmk]
  exact ipCounts_keys_nodup key ps

/-- Every entry of a distribution counts at least one record, and its
name is the key of some input record. -/
theorem mem_ipStats_inv (key : IPv4Record → String) (ps : List IPv4Record)
    (e : IpDistributionEntry) (he : e ∈ ipStats key ps) :
    1 ≤ e.value ∧ ∃ p ∈ ps, key p = e.name := by
  unfold ipStats at he
  have hm := (List.perm_insertionSort countGE
    (mkEntries ps.length (ipCounts key ps))).mem_iff.mp he
  unfold mkEntries at hm
  obtain ⟨kv, hkv, rfl⟩ := List.mem_map.mp hm
  have h := ipCounts_inv key ps kv hkv
  refine ⟨h.1, ?_⟩
  obtain ⟨p, hp, hpe⟩ := List.mem_map.mp h.2
  exact ⟨p, hp, hpe⟩

/-- C10: in each distribution every IP appears at most once, every
listed IP really occurs in the corresponding field of some input
record, and every count is at least 1. -/
theorem c10_distribution_invariants (ps : List IPv4Record) :
    (((sourceIpStats ps).map IpDistributionEntry.name).Nodup ∧
      ∀ e ∈ sourceIpStats ps,
        1 ≤ e.value ∧ ∃ p ∈ ps, p.sourceIp = e.name) ∧
    (((destIpStats ps).map IpDistributionEntry.name).Nodup ∧
      ∀ e ∈ destIpStats ps,
        1 ≤ e.value ∧ ∃ p ∈ ps, p.destIp = e.name) :=
  ⟨⟨ipStats_names_nodup _ ps, fun e he => mem_ipStats_inv _ ps e he⟩,
   ⟨ipStats_names_nodup _ ps, fun e he => mem_ipStats_inv _ ps e he⟩⟩

/-- Concrete record for instantiating the filter theorems. -/
def c2Record : IPv4Record := ⟨"192.168.0.1", "192.168.0.2", 17, 32, 2, 500, 60⟩

/-- Concrete source-direction filter for the C2 witness. -/
def c2Filter : FilterCriteria := ⟨none, none, "192.168.0.1", "source"⟩

/-- C2 (witness): the predicate characterization instantiated at a
concrete filter, record and one-record input. -/
theorem c2_witness :
    (ipMatchesB c2Filter c2Record = true ↔ ipPredSpec c2Filter c2Record) ∧
    (c2Record ∈ filteredIpv4Packets c2Filter [c2Record] ↔
      c2Record ∈ [c2Record] ∧ timeMatchesB c2Filter c2Record = true ∧
        ipMatchesB c2Filter c2Record = true) :=
  c2_ip_predicate_conjunction c2Filter c2Record [c2Record]

/-- Concrete record for instantiating the identity-filter theorem. -/
def c3Record : IPv4Record := ⟨"1.2.3.4", "5.6.7.8", 1, 1, 3, 999999, 40⟩

/-- C3 (witness): the empty criteria return a concrete one-record input
unchanged. -/
theorem c3_witness :
    filteredIpv4Packets ⟨none, none, "", "any"⟩ [c3Record] = [c3Record] :=
  c3_identity_filter [c3Record]

/-- Concrete record and filter for instantiating the sublist theorem. -/
def c8Record : IPv4Record := ⟨"8.8.8.8", "9.9.9.9", 6, 60, 4, 0, 80⟩

/-- C8 (witness): the sublist property instantiated at a concrete
filter and input. -/
theorem c8_witness :
    (filteredIpv4Packets ⟨some 1, some 2, "8.8.8.8", "dest"⟩
      [c8Record]).Sublist [c8Record] :=
  c8_filter_sublist ⟨some 1, some 2, "8.8.8.8", "dest"⟩ [c8Record]

/-- One-record input for the C10 witness. -/
def c10List : List IPv4Record := [⟨"q", "r", 2, 128, 0, 0, 0⟩]

/-- The single entry of the source distribution of `c10List`. -/
def c10Entry : IpDistributionEntry :=
  ⟨"q", 1, toFixed2 (((1 : ℕ) : ℚ) / ((c10List.length : ℕ) : ℚ) * 100)⟩

/-- The source distribution of `c10List` evaluates to that one entry. -/
theorem c10_eval : sourceIpStats c10List = [c10Entry] := rfl

/-- C10 (witness): the invariants instantiated at a concrete input and
a concrete entry of its distribution. -/
theorem c10_witness :
    ((sourceIpStats c10List).map IpDistributionEntry.name).Nodup ∧
    (1 ≤ c10Entry.value ∧ ∃ p ∈ c10List, p.sourceIp = c10Entry.name) :=
  ⟨(c10_distribution_invariants c10List).1.1,
   (c10_distribution_invariants c10List).1.2 c10Entry
     (by rw [c10_eval]; exact List.mem_singleton.mpr rfl)⟩
